import Mathlib

/-!
Verification of the data pipeline of `dashboard6.py` (the canonical variant):
loading/cleaning (`carregar_dados`), the sidebar filter (`df_filtered`), and
the aggregations feeding each panel (`top_diag`, `vendas_tempo`, `df_queixa`,
`top_diagnosticos`).  Pandas cells are modelled one value at a time: a
nullable text cell is `Option String` (`none` = NaN), a timestamp is an
integer number of seconds since the epoch (`none` = NaT before cleaning).
-/

namespace Dashboard

/-! ## Text primitives -/

/-- Whitespace as stripped by `str.strip()` and matched by the regex class
`\s` (modelled over the ASCII whitespace characters, the ones occurring in
the data). -/
def isWS (c : Char) : Bool := c.isWhitespace

/-- `str.strip()` on a character list: drop leading and trailing whitespace. -/
def pyStripList (l : List Char) : List Char :=
  ((l.dropWhile isWS).reverse.dropWhile isWS).reverse

/-- `str.strip()`. -/
def pyStrip (s : String) : String := String.mk (pyStripList s.toList)

/-- `astype(str)` on one cell: a missing value (NaN) renders as the literal
text "nan"; a string cell stays itself. -/
def optToStr : Option String → String
  | none => "nan"
  | some s => s

/-! ## Diagnosis cleaning (dashboard6.py lines 24-31) -/

/-- The tail of the sentinel regex after `N[ÃA]O`: `\s+DEFINIDO\.?$`.  The
greedy `\s+` is maximal munch; since `DEFINIDO` starts with a
non-whitespace character, consuming all leading whitespace is the only way a
match can continue, so no backtracking is lost. -/
def matchTail : List Char → Bool
  | [] => false
  | c :: rest =>
      isWS c &&
        (decide (rest.dropWhile isWS = "DEFINIDO".toList) ||
         decide (rest.dropWhile isWS = "DEFINIDO.".toList))

/-- `N[ÃA]O\s+DEFINIDO\.?$` against the whole remaining input. -/
def matchCore : List Char → Bool
  | c1 :: c2 :: c3 :: rest =>
      c1 = 'N' && (c2 = 'Ã' || c2 = 'A') && c3 = 'O' && matchTail rest
  | _ => false

/-- Full-string match of the regex `^\.?N[ÃA]O\s+DEFINIDO\.?$` of
dashboard6.py line 28 (no IGNORECASE flag, so the match is case-sensitive).
When the input starts with '.', consuming it is the only viable parse of
`\.?` because `matchCore` requires 'N' first. -/
def sentinelMatchList : List Char → Bool
  | [] => false
  | c :: rest => if c = '.' then matchCore rest else matchCore (c :: rest)

/-- Full-string match of `^\.?N[ÃA]O\s+DEFINIDO\.?$`. -/
def sentinelMatch (s : String) : Bool := sentinelMatchList s.toList

/-- The diagnosis-cleaning pipeline of `carregar_dados` (dashboard6.py lines
24-31): `astype(str)` (a missing value becomes the text "nan"),
`str.strip()`, replace a full-string regex match of the "not defined"
sentinel by NaN, then replace the literal text "nan" by NaN. -/
def cleanDiagnostico (v : Option String) : Option String :=
  let s := pyStrip (optToStr v)
  if sentinelMatch s then none
  else if s = "nan" then none
  else some s

/-- The sentinel pattern written out from the spec's words: an optional
leading period, "NAO" or "NÃO", at least one whitespace character,
"DEFINIDO", an optional trailing period, matched against the whole string. -/
def sentinelShape (s : String) : Prop :=
  ∃ dot1 nao ws dot2 : List Char,
    (dot1 = [] ∨ dot1 = ['.']) ∧
    (nao = "NAO".toList ∨ nao = "NÃO".toList) ∧
    ws ≠ [] ∧ (∀ c ∈ ws, isWS c = true) ∧
    (dot2 = [] ∨ dot2 = ['.']) ∧
    s.toList = dot1 ++ nao ++ ws ++ "DEFINIDO".toList ++ dot2

/-! ## Rows and loading (dashboard6.py lines 13-48) -/

/-- Seconds per day; Python's `.dt.date` and a timedelta's `.days` both floor
a timestamp by it. -/
def secPerDay : Int := 86400

/-- One raw row of saude_processada.csv after `pd.to_datetime(...,
errors="coerce")` on the two date columns: `none` is NaT (an unparseable
date).  Timestamps are seconds since the epoch. -/
structure RawRow where
  _id : Nat
  cidade : String
  sexo : String
  dataNascimento : Option Int
  dataEntrada : Option Int
  queixa : Option String
  diagnostico : Option String
deriving DecidableEq

/-- One row of the loaded Dataset: both dates parsed, diagnosis cleaned, age
at the visit derived. -/
structure Row where
  _id : Nat
  cidade : String
  sexo : String
  dataNascimento : Int
  dataEntrada : Int
  queixa : Option String
  diagnostico : Option String
  idade_no_atendimento : Int
deriving DecidableEq

/-- `(df['dataEntrada'] - df['dataNascimento']).dt.days // 365`
(dashboard6.py line 38): a timedelta's `.days` floors by the day length, and
`//` is Python floor division. -/
def idadeNoAtendimento (nasc ent : Int) : Int :=
  ((ent - nasc).fdiv secPerDay).fdiv 365

/-- One row through `carregar_dados` (dashboard6.py lines 24-41): the
diagnosis is cleaned, the age is derived, and the row is kept only when both
dates parsed and `0 <= idade < 120` (a NaT date makes the age NaN, and a NaN
age fails both comparisons of line 41). -/
def processRow (r : RawRow) : Option Row :=
  match r.dataNascimento, r.dataEntrada with
  | some b, some e =>
      let a := idadeNoAtendimento b e
      if 0 ≤ a ∧ a < 120 then
        some { _id := r._id, cidade := r.cidade, sexo := r.sexo,
               dataNascimento := b, dataEntrada := e, queixa := r.queixa,
               diagnostico := cleanDiagnostico r.diagnostico,
               idade_no_atendimento := a }
      else none
  | _, _ => none

/-- `carregar_dados` (dashboard6.py lines 13-48) applied to an already
parsed table. -/
def carregar_dados (rows : List RawRow) : List Row := rows.filterMap processRow

/-- `pd.cut(df['idade_no_atendimento'], bins=[0,2,12,19,59,120],
labels=labels, right=False)` on one value (dashboard6.py lines 44-46):
left-closed right-open bins; a value in no bin gets NaN. -/
def faixa_etaria (a : Int) : Option String :=
  if 0 ≤ a ∧ a < 2 then some "Bebê (0-2)"
  else if 2 ≤ a ∧ a < 12 then some "Criança (3-12)"
  else if 12 ≤ a ∧ a < 19 then some "Adolescente (13-19)"
  else if 19 ≤ a ∧ a < 59 then some "Adulto (20-59)"
  else if 59 ≤ a ∧ a < 120 then some "Idoso (60+)"
  else none

/-- The left edges of the bins `[0, 2, 12, 19, 59, 120]`. -/
def binLo : Fin 5 → Int
  | 0 => 0 | 1 => 2 | 2 => 12 | 3 => 19 | 4 => 59

/-- The right edges of the bins `[0, 2, 12, 19, 59, 120]`. -/
def binHi : Fin 5 → Int
  | 0 => 2 | 1 => 12 | 2 => 19 | 3 => 59 | 4 => 120

/-- The five fixed ordered labels of dashboard6.py line 45. -/
def labels_faixa : Fin 5 → String
  | 0 => "Bebê (0-2)" | 1 => "Criança (3-12)" | 2 => "Adolescente (13-19)"
  | 3 => "Adulto (20-59)" | 4 => "Idoso (60+)"

/-! ## The sidebar filter (dashboard6.py lines 64-93) -/

/-- `.dt.date` on a timestamp: the calendar day, time of day discarded. -/
def pyDate (t : Int) : Int := t.fdiv secPerDay

/-- The user's sidebar selection: a city set and a day range. -/
structure FilterCriteria where
  cidades : List String
  data_inicio : Int
  data_fim : Int

/-- `df_filtered` (dashboard6.py lines 89-93): exact city membership and the
visit date, truncated to the day, inside the inclusive range. -/
def df_filtered (df : List Row) (c : FilterCriteria) : List Row :=
  df.filter fun r =>
    c.cidades.contains r.cidade &&
    decide (c.data_inicio ≤ pyDate r.dataEntrada) &&
    decide (pyDate r.dataEntrada ≤ c.data_fim)

/-- `Series.unique()`: the distinct values in order of first occurrence. -/
def uniqueFirstAux {α : Type} [DecidableEq α] : List α → List α → List α
  | _, [] => []
  | seen, x :: xs =>
      if x ∈ seen then uniqueFirstAux seen xs
      else x :: uniqueFirstAux (x :: seen) xs

/-- `Series.unique()`: the distinct values in order of first occurrence. -/
def uniqueFirst {α : Type} [DecidableEq α] (l : List α) : List α :=
  uniqueFirstAux [] l

/-- `df['dataEntrada'].min()` (dashboard6.py line 74); the source raises on
an empty frame, the default value of the empty case is never relied upon. -/
def minEntrada (df : List Row) : Int :=
  match df.map Row.dataEntrada with
  | [] => 0
  | t :: ts => ts.foldl min t

/-- `df['dataEntrada'].max()` (dashboard6.py line 75). -/
def maxEntrada (df : List Row) : Int :=
  match df.map Row.dataEntrada with
  | [] => 0
  | t :: ts => ts.foldl max t

/-- The sidebar defaults (dashboard6.py lines 64-86): every distinct city,
and the full observed span of visit days. -/
def defaultCriteria (df : List Row) : FilterCriteria :=
  { cidades := uniqueFirst (df.map Row.cidade)
  , data_inicio := pyDate (minEntrada df)
  , data_fim := pyDate (maxEntrada df) }

/-! ## Aggregations -/

/-- The non-null diagnoses of a view (`dropna` on the diagnosis column). -/
def diagnosticos (df : List Row) : List String := df.filterMap Row.diagnostico

/-- Insertion step of `value_counts()`'s descending sort: a new entry goes
before the first entry whose count is not larger, so entries with equal
counts keep their relative order (stable sort). -/
def insertDesc (x : String × Nat) : List (String × Nat) → List (String × Nat)
  | [] => [x]
  | y :: ys => if y.2 ≤ x.2 then x :: y :: ys else y :: insertDesc x ys

/-- Stable descending-by-count sort. -/
def sortCountsDesc : List (String × Nat) → List (String × Nat)
  | [] => []
  | x :: xs => insertDesc x (sortCountsDesc xs)

/-- `Series.value_counts()`: one `(value, count)` entry per distinct value,
most frequent first, ties in order of first occurrence. -/
def value_counts (l : List String) : List (String × Nat) :=
  sortCountsDesc ((uniqueFirst l).map fun v => (v, l.count v))

/-- The "Diagnóstico + Comum" KPI (dashboard6.py lines 107-111):
`df_filtered['diagnostico'].dropna().value_counts().idxmax()`, with the bare
`except` turning the error `idxmax` raises on an empty series into "N/A". -/
def top_diag (df : List Row) : String :=
  match value_counts (diagnosticos df) with
  | [] => "N/A"
  | p :: _ => p.1

/-- Python lowercasing as `case=False` applies it (re.IGNORECASE folding),
over ASCII letters and the accented capitals of the data's alphabet. -/
def pyLowerChar (c : Char) : Char :=
  if c = 'Ã' then 'ã' else if c = 'Á' then 'á' else if c = 'À' then 'à'
  else if c = 'Â' then 'â' else if c = 'É' then 'é' else if c = 'Ê' then 'ê'
  else if c = 'Í' then 'í' else if c = 'Ó' then 'ó' else if c = 'Ô' then 'ô'
  else if c = 'Õ' then 'õ' else if c = 'Ú' then 'ú' else if c = 'Ç' then 'ç'
  else c.toLower

/-- Python lowercasing of a string. -/
def pyLower (s : String) : String := String.mk (s.toList.map pyLowerChar)

/-- The complaint search (dashboard6.py lines 167-170).  The widget's text
runs only under `if termo_busca:`, and the empty string is falsy, so an
empty term selects nothing.  Otherwise
`df_filtered['queixa'].astype(str).str.contains(termo_busca, case=False,
na=False)` filters the view: `astype(str)` first turns a null complaint
into the literal text "nan", so `na=False` never applies; the term is
passed to `re` as a pattern, which for a term free of regex metacharacters
(all the searches the page suggests) is a case-insensitive substring test,
modelled here. -/
def df_queixa (df : List Row) (termo : String) : List Row :=
  if termo = "" then []
  else df.filter fun r =>
    decide ((pyLower termo).toList <:+: (pyLower (optToStr r.queixa)).toList)

/-- The calendar month of a timestamp, numbered linearly (12·year + month
index): the day count is converted by the standard civil-from-days
computation used by date libraries.  Every intermediate division gets a
non-negative dividend, so `fdiv` agrees with the source computations. -/
def civilMonth (t : Int) : Int :=
  let days := t.fdiv secPerDay
  let z := days + 719468
  let era := z.fdiv 146097
  let doe := z - era * 146097
  let yoe := (doe - doe.fdiv 1460 + doe.fdiv 36524 - doe.fdiv 146096).fdiv 365
  let y := yoe + era * 400
  let doy := doe - (365 * yoe + yoe.fdiv 4 - yoe.fdiv 100)
  let mp := (5 * doy + 2).fdiv 153
  let m := mp + (if mp < 10 then 3 else (-9 : Int))
  let year := y + (if m ≤ 2 then 1 else 0)
  12 * year + (m - 1)

/-- The visit months of a view. -/
def visitMonths (df : List Row) : List Int :=
  df.map fun r => civilMonth r.dataEntrada

/-- Earliest visit month of a view (the default of the empty case is never
relied upon: `resample` on an empty frame yields an empty result). -/
def minMonth (df : List Row) : Int :=
  match visitMonths df with
  | [] => 0
  | m :: ms => ms.foldl min m

/-- Latest visit month of a view. -/
def maxMonth (df : List Row) : Int :=
  match visitMonths df with
  | [] => 0
  | m :: ms => ms.foldl max m

/-- `vendas_tempo` (dashboard6.py line 120):
`df_filtered.set_index('dataEntrada').resample('M').size()` — calendar
resampling produces one bucket per month from the earliest to the latest
month observed, counting the visits that fall in it (zero for a gap month),
in chronological order; an empty frame resamples to an empty series. -/
def vendas_tempo (df : List Row) : List (Int × Nat) :=
  match visitMonths df with
  | [] => []
  | _ :: _ =>
      (List.range (maxMonth df - minMonth df + 1).toNat).map fun (i : Nat) =>
        (minMonth df + (i : Int),
         (visitMonths df).count (minMonth df + (i : Int)))

/-- The "Top 10 Diagnósticos" ranking (dashboard6.py lines 192-194):
`dropna(subset=['diagnostico'])`, then `value_counts().head(10)` — null
diagnoses are dropped before counting, and `head` truncates to ten. -/
def top_diagnosticos (df : List Row) : List (String × Nat) :=
  (value_counts (diagnosticos df)).take 10

/-! ## Lemmas: stripping -/

theorem toList_mk (l : List Char) : (String.mk l).toList = l := rfl

theorem head_false_of_dropWhile_eq_cons {p : Char → Bool} :
    ∀ {l : List Char} {a : Char} {as : List Char},
      l.dropWhile p = a :: as → p a = false := by
  intro l
  induction l with
  | nil => intro a as h; simp at h
  | cons x xs ih =>
    intro a as h
    rw [List.dropWhile_cons] at h
    split at h
    · exact ih h
    · next hx =>
      injection h with h1 _
      subst h1
      simpa using hx

theorem dropWhile_dropWhile (p : Char → Bool) (l : List Char) :
    (l.dropWhile p).dropWhile p = l.dropWhile p := by
  cases h : l.dropWhile p with
  | nil => rfl
  | cons a as =>
    have ha : p a = false := head_false_of_dropWhile_eq_cons h
    simp [List.dropWhile_cons, ha]

theorem stripList_no_lead (l : List Char) :
    (pyStripList l).dropWhile isWS = pyStripList l := by
  unfold pyStripList
  obtain ⟨t, ht⟩ : ∃ t, t ++ (l.dropWhile isWS).reverse.dropWhile isWS =
      (l.dropWhile isWS).reverse := List.dropWhile_suffix isWS
  cases hvr : ((l.dropWhile isWS).reverse.dropWhile isWS).reverse with
  | nil => rfl
  | cons c cs =>
    have hu : l.dropWhile isWS = c :: (cs ++ t.reverse) := by
      have h2 := congrArg List.reverse ht
      rw [List.reverse_append, List.reverse_reverse] at h2
      rw [← h2, hvr]
      rfl
    have hc : isWS c = false := head_false_of_dropWhile_eq_cons hu
    simp [List.dropWhile_cons, hc]

theorem pyStripList_idem (l : List Char) :
    pyStripList (pyStripList l) = pyStripList l := by
  show (((pyStripList l).dropWhile isWS).reverse.dropWhile isWS).reverse =
    pyStripList l
  rw [stripList_no_lead l]
  have h2 : (pyStripList l).reverse.dropWhile isWS = (pyStripList l).reverse := by
    unfold pyStripList
    rw [List.reverse_reverse]
    exact dropWhile_dropWhile isWS _
  rw [h2, List.reverse_reverse]

theorem pyStrip_idem (s : String) : pyStrip (pyStrip s) = pyStrip s := by
  unfold pyStrip
  rw [toList_mk, pyStripList_idem]

/-! ## Lemmas: the sentinel regex -/

theorem dropWhile_append_of_forall {p : Char → Bool} {l₁ l₂ : List Char}
    (h : ∀ c ∈ l₁, p c = true) :
    (l₁ ++ l₂).dropWhile p = l₂.dropWhile p := by
  induction l₁ with
  | nil => rfl
  | cons a as ih =>
    have ha : p a = true := h a (by simp)
    simp only [List.cons_append, List.dropWhile_cons, ha, if_pos]
    exact ih fun c hc => h c (by simp [hc])

theorem matchTail_iff (cs : List Char) :
    matchTail cs = true ↔
      ∃ ws dot2 : List Char, ws ≠ [] ∧ (∀ c ∈ ws, isWS c = true) ∧
        (dot2 = [] ∨ dot2 = ['.']) ∧
        cs = ws ++ "DEFINIDO".toList ++ dot2 := by
  constructor
  · intro h
    cases cs with
    | nil => simp [matchTail] at h
    | cons c rest =>
      simp only [matchTail, Bool.and_eq_true, Bool.or_eq_true,
        decide_eq_true_iff] at h
      obtain ⟨hc, hr⟩ := h
      have hmem : ∀ x ∈ c :: rest.takeWhile isWS, isWS x = true := by
        intro x hx
        rcases List.mem_cons.mp hx with rfl | hx
        · exact hc
        · exact List.mem_takeWhile_imp hx
      rcases hr with hr | hr
      · refine ⟨c :: rest.takeWhile isWS, [], by simp, hmem, Or.inl rfl, ?_⟩
        simp only [List.cons_append, List.append_nil, List.cons.injEq, true_and]
        rw [← hr, List.takeWhile_append_dropWhile]
      · refine ⟨c :: rest.takeWhile isWS, ['.'], by simp, hmem, Or.inr rfl, ?_⟩
        have hdef : ("DEFINIDO.".toList : List Char) =
            "DEFINIDO".toList ++ ['.'] := rfl
        rw [hdef] at hr
        simp only [List.cons_append, List.cons.injEq, true_and]
        rw [List.append_assoc, ← hr, List.takeWhile_append_dropWhile]
  · rintro ⟨ws, dot2, hne, hws, hdot, rfl⟩
    cases ws with
    | nil => exact absurd rfl hne
    | cons w ws' =>
      have hw : isWS w = true := hws w (by simp)
      have hws' : ∀ c ∈ ws', isWS c = true := fun c hc => hws c (by simp [hc])
      have hD : ("DEFINIDO".toList ++ dot2).dropWhile isWS =
          "DEFINIDO".toList ++ dot2 := by
        have hDchar : isWS 'D' = false := by decide
        show ('D' :: ("EFINIDO".toList ++ dot2)).dropWhile isWS = _
        rw [List.dropWhile_cons, hDchar]
        simp
      show matchTail (w :: (ws' ++ "DEFINIDO".toList ++ dot2)) = true
      simp only [matchTail, hw, Bool.true_and]
      rw [List.append_assoc, dropWhile_append_of_forall hws', hD]
      rcases hdot with rfl | rfl
      · simp
      · have hlit : ("DEFINIDO".toList : List Char) ++ ['.'] =
            "DEFINIDO.".toList := rfl
        simp [hlit]

theorem matchCore_iff (cs : List Char) :
    matchCore cs = true ↔
      ∃ nao ws dot2 : List Char,
        (nao = "NAO".toList ∨ nao = "NÃO".toList) ∧
        ws ≠ [] ∧ (∀ c ∈ ws, isWS c = true) ∧
        (dot2 = [] ∨ dot2 = ['.']) ∧
        cs = nao ++ ws ++ "DEFINIDO".toList ++ dot2 := by
  constructor
  · intro h
    cases cs with
    | nil => simp [matchCore] at h
    | cons c1 cs1 =>
      cases cs1 with
      | nil => simp [matchCore] at h
      | cons c2 cs2 =>
        cases cs2 with
        | nil => simp [matchCore] at h
        | cons c3 rest =>
          simp only [matchCore, Bool.and_eq_true, Bool.or_eq_true,
            decide_eq_true_iff] at h
          obtain ⟨⟨⟨h1, h2⟩, h3⟩, htail⟩ := h
          subst h1; subst h3
          obtain ⟨ws, dot2, hne, hws, hdot, hrest⟩ :=
            (matchTail_iff rest).mp htail
          subst hrest
          rcases h2 with rfl | rfl
          · exact ⟨"NÃO".toList, ws, dot2, Or.inr rfl, hne, hws, hdot, rfl⟩
          · exact ⟨"NAO".toList, ws, dot2, Or.inl rfl, hne, hws, hdot, rfl⟩
  · rintro ⟨nao, ws, dot2, hnao, hne, hws, hdot, rfl⟩
    have htail : matchTail (ws ++ "DEFINIDO".toList ++ dot2) = true :=
      (matchTail_iff _).mpr ⟨ws, dot2, hne, hws, hdot, rfl⟩
    rcases hnao with rfl | rfl
    · show matchCore ('N' :: 'A' :: 'O' :: (ws ++ "DEFINIDO".toList ++ dot2))
        = true
      have hstep : ∀ X : List Char, matchCore ('N' :: 'A' :: 'O' :: X) =
          matchTail X := fun _ => rfl
      rw [hstep]
      exact htail
    · show matchCore ('N' :: 'Ã' :: 'O' :: (ws ++ "DEFINIDO".toList ++ dot2))
        = true
      have hstep : ∀ X : List Char, matchCore ('N' :: 'Ã' :: 'O' :: X) =
          matchTail X := fun _ => rfl
      rw [hstep]
      exact htail

theorem sentinelMatchList_iff (cs : List Char) :
    sentinelMatchList cs = true ↔
      ∃ dot1 nao ws dot2 : List Char,
        (dot1 = [] ∨ dot1 = ['.']) ∧
        (nao = "NAO".toList ∨ nao = "NÃO".toList) ∧
        ws ≠ [] ∧ (∀ c ∈ ws, isWS c = true) ∧
        (dot2 = [] ∨ dot2 = ['.']) ∧
        cs = dot1 ++ nao ++ ws ++ "DEFINIDO".toList ++ dot2 := by
  constructor
  · intro h
    cases cs with
    | nil => simp [sentinelMatchList] at h
    | cons c rest =>
      by_cases hc : c = '.'
      · subst hc
        have h2 : matchCore rest = true := by
          simpa [sentinelMatchList] using h
        obtain ⟨nao, ws, dot2, hnao, hne, hws, hdot, hrest⟩ :=
          (matchCore_iff rest).mp h2
        exact ⟨['.'], nao, ws, dot2, Or.inr rfl, hnao, hne, hws, hdot,
          by rw [hrest]; rfl⟩
      · have h2 : matchCore (c :: rest) = true := by
          simpa [sentinelMatchList, hc] using h
        obtain ⟨nao, ws, dot2, hnao, hne, hws, hdot, hrest⟩ :=
          (matchCore_iff (c :: rest)).mp h2
        exact ⟨[], nao, ws, dot2, Or.inl rfl, hnao, hne, hws, hdot,
          by rw [hrest]; rfl⟩
  · rintro ⟨dot1, nao, ws, dot2, hdot1, hnao, hne, hws, hdot, rfl⟩
    have hcore : matchCore (nao ++ ws ++ "DEFINIDO".toList ++ dot2) = true :=
      (matchCore_iff _).mpr ⟨nao, ws, dot2, hnao, hne, hws, hdot, rfl⟩
    rcases hdot1 with rfl | rfl
    · rcases hnao with rfl | rfl
      · have hcore2 : matchCore
            ('N' :: 'A' :: 'O' :: (ws ++ "DEFINIDO".toList ++ dot2)) = true :=
          hcore
        show sentinelMatchList
          ('N' :: 'A' :: 'O' :: (ws ++ "DEFINIDO".toList ++ dot2)) = true
        simpa [sentinelMatchList] using hcore2
      · have hcore2 : matchCore
            ('N' :: 'Ã' :: 'O' :: (ws ++ "DEFINIDO".toList ++ dot2)) = true :=
          hcore
        show sentinelMatchList
          ('N' :: 'Ã' :: 'O' :: (ws ++ "DEFINIDO".toList ++ dot2)) = true
        simpa [sentinelMatchList] using hcore2
    · have hcore2 : matchCore
          (nao ++ ws ++ "DEFINIDO".toList ++ dot2) = true := hcore
      show sentinelMatchList
        ('.' :: (nao ++ ws ++ "DEFINIDO".toList ++ dot2)) = true
      simpa [sentinelMatchList] using hcore2

theorem sentinelMatch_iff_shape (s : String) :
    sentinelMatch s = true ↔ sentinelShape s := by
  unfold sentinelMatch sentinelShape
  exact sentinelMatchList_iff s.toList

/-! ## Lemmas: distinct values in order of first occurrence -/

theorem mem_uniqueFirstAux {α : Type} [DecidableEq α] :
    ∀ (l seen : List α) (a : α),
      a ∈ uniqueFirstAux seen l ↔ a ∈ l ∧ a ∉ seen := by
  intro l
  induction l with
  | nil => intro seen a; simp [uniqueFirstAux]
  | cons x xs ih =>
    intro seen a
    by_cases hx : x ∈ seen
    · simp only [uniqueFirstAux, if_pos hx, ih]
      constructor
      · rintro ⟨ha, hs⟩; exact ⟨by simp [ha], hs⟩
      · rintro ⟨ha, hs⟩
        rcases List.mem_cons.mp ha with rfl | ha
        · exact absurd hx hs
        · exact ⟨ha, hs⟩
    · simp only [uniqueFirstAux, if_neg hx]
      constructor
      · intro h
        rcases List.mem_cons.mp h with rfl | h
        · exact ⟨by simp, hx⟩
        · obtain ⟨ha, hs⟩ := (ih _ _).mp h
          exact ⟨by simp [ha], fun hmem => hs (by simp [hmem])⟩
      · rintro ⟨ha, hs⟩
        by_cases hax : a = x
        · subst hax; exact List.mem_cons_self _ _
        · rcases List.mem_cons.mp ha with rfl | ha
          · exact absurd rfl hax
          · refine List.mem_cons_of_mem _ ((ih _ _).mpr ⟨ha, fun hmem => ?_⟩)
            rcases List.mem_cons.mp hmem with h1 | h1
            · exact hax h1
            · exact hs h1

theorem mem_uniqueFirst {α : Type} [DecidableEq α] (l : List α) (a : α) :
    a ∈ uniqueFirst l ↔ a ∈ l := by
  rw [uniqueFirst, mem_uniqueFirstAux]
  simp

theorem pairwise_indexOf_uniqueFirstAux {α : Type} [DecidableEq α] :
    ∀ (l seen : List α),
      (uniqueFirstAux seen l).Pairwise fun a b =>
        l.indexOf a < l.indexOf b := by
  intro l
  induction l with
  | nil => intro seen; simp [uniqueFirstAux]
  | cons x xs ih =>
    intro seen
    have htrans : ∀ res : List α, (∀ a ∈ res, a ≠ x) →
        res.Pairwise (fun a b => xs.indexOf a < xs.indexOf b) →
        res.Pairwise (fun a b => (x :: xs).indexOf a < (x :: xs).indexOf b) := by
      intro res hres hp
      refine List.Pairwise.imp_of_mem ?_ hp
      intro a b ha hb hab
      rw [List.indexOf_cons_ne _ (hres a ha).symm,
        List.indexOf_cons_ne _ (hres b hb).symm]
      exact Nat.succ_lt_succ hab
    by_cases hx : x ∈ seen
    · simp only [uniqueFirstAux, if_pos hx]
      refine htrans _ ?_ (ih seen)
      intro a ha
      obtain ⟨_, h2⟩ := (mem_uniqueFirstAux xs seen a).mp ha
      exact fun he => h2 (he ▸ hx)
    · simp only [uniqueFirstAux, if_neg hx]
      refine List.Pairwise.cons ?_ ?_
      · intro b hb
        obtain ⟨_, h2⟩ := (mem_uniqueFirstAux xs (x :: seen) b).mp hb
        have hbx : b ≠ x := fun he => h2 (by simp [he])
        rw [List.indexOf_cons_self, List.indexOf_cons_ne _ hbx.symm]
        exact Nat.succ_pos _
      · refine htrans _ ?_ (ih (x :: seen))
        intro a ha
        obtain ⟨_, h2⟩ := (mem_uniqueFirstAux xs (x :: seen) a).mp ha
        exact fun he => h2 (by simp [he])

theorem pairwise_indexOf_uniqueFirst {α : Type} [DecidableEq α] (l : List α) :
    (uniqueFirst l).Pairwise fun a b => l.indexOf a < l.indexOf b :=
  pairwise_indexOf_uniqueFirstAux l []

/-! ## Lemmas: the stable descending sort of value_counts -/

theorem mem_insertDesc (x z : String × Nat) :
    ∀ l : List (String × Nat), z ∈ insertDesc x l ↔ z = x ∨ z ∈ l := by
  intro l
  induction l with
  | nil => simp [insertDesc]
  | cons y ys ih =>
    by_cases h : y.2 ≤ x.2
    · simp [insertDesc, if_pos h]
    · simp only [insertDesc, if_neg h, List.mem_cons, ih]
      tauto

theorem pairwise_insertDesc (S : String × Nat → String × Nat → Prop)
    (x : String × Nat) :
    ∀ l : List (String × Nat),
      (l.Pairwise fun a b => b.2 ≤ a.2 ∧ (a.2 ≤ b.2 → S a b)) →
      (∀ y ∈ l, S x y) →
      (insertDesc x l).Pairwise fun a b => b.2 ≤ a.2 ∧ (a.2 ≤ b.2 → S a b) := by
  intro l
  induction l with
  | nil => intro _ _; simp [insertDesc]
  | cons y ys ih =>
    intro hp hS
    rcases List.pairwise_cons.mp hp with ⟨hy, hys⟩
    by_cases h : y.2 ≤ x.2
    · simp only [insertDesc, if_pos h]
      refine List.Pairwise.cons ?_ hp
      intro z hz
      rcases List.mem_cons.mp hz with rfl | hz
      · exact ⟨h, fun _ => hS z (List.mem_cons_self _ _)⟩
      · obtain ⟨hz1, _⟩ := hy z hz
        exact ⟨le_trans hz1 h, fun _ => hS z (List.mem_cons_of_mem _ hz)⟩
    · simp only [insertDesc, if_neg h]
      refine List.Pairwise.cons ?_
        (ih hys fun z hz => hS z (List.mem_cons_of_mem _ hz))
      intro z hz
      rcases (mem_insertDesc x z ys).mp hz with rfl | hz
      · exact ⟨le_of_lt (Nat.lt_of_not_le h), fun hle => absurd hle h⟩
      · exact hy z hz

theorem mem_sortCountsDesc (z : String × Nat) :
    ∀ l : List (String × Nat), z ∈ sortCountsDesc l ↔ z ∈ l := by
  intro l
  induction l with
  | nil => simp [sortCountsDesc]
  | cons x xs ih => simp [sortCountsDesc, mem_insertDesc, ih]

theorem pairwise_sortCountsDesc (S : String × Nat → String × Nat → Prop) :
    ∀ l : List (String × Nat), l.Pairwise S →
      (sortCountsDesc l).Pairwise fun a b => b.2 ≤ a.2 ∧ (a.2 ≤ b.2 → S a b) := by
  intro l
  induction l with
  | nil => intro _; simp [sortCountsDesc]
  | cons x xs ih =>
    intro hp
    rcases List.pairwise_cons.mp hp with ⟨hx, hxs⟩
    exact pairwise_insertDesc S x (sortCountsDesc xs) (ih hxs)
      fun y hy => hx y ((mem_sortCountsDesc y xs).mp hy)

/-! ## Lemmas: folded minimum and maximum -/

theorem foldl_min_le (l : List Int) : ∀ a : Int, l.foldl min a ≤ a := by
  induction l with
  | nil => intro a; simp
  | cons x xs ih =>
    intro a
    exact le_trans (ih (min a x)) (min_le_left a x)

theorem foldl_min_le_mem (l : List Int) :
    ∀ (a x : Int), x ∈ l → l.foldl min a ≤ x := by
  induction l with
  | nil => intro a x hx; simp at hx
  | cons y ys ih =>
    intro a x hx
    rcases List.mem_cons.mp hx with rfl | hx
    · exact le_trans (foldl_min_le ys (min a x)) (min_le_right a x)
    · exact ih (min a y) x hx

theorem foldl_min_mem (l : List Int) :
    ∀ a : Int, l.foldl min a = a ∨ l.foldl min a ∈ l := by
  induction l with
  | nil => intro a; exact Or.inl rfl
  | cons x xs ih =>
    intro a
    simp only [List.foldl_cons]
    rcases ih (min a x) with h | h
    · rcases le_total a x with hax | hax
      · left; rw [h, min_eq_left hax]
      · right; rw [h, min_eq_right hax]; exact List.mem_cons_self x xs
    · right; exact List.mem_cons_of_mem x h

theorem le_foldl_max (l : List Int) : ∀ a : Int, a ≤ l.foldl max a := by
  induction l with
  | nil => intro a; simp
  | cons x xs ih =>
    intro a
    exact le_trans (le_max_left a x) (ih (max a x))

theorem mem_le_foldl_max (l : List Int) :
    ∀ (a x : Int), x ∈ l → x ≤ l.foldl max a := by
  induction l with
  | nil => intro a x hx; simp at hx
  | cons y ys ih =>
    intro a x hx
    rcases List.mem_cons.mp hx with rfl | hx
    · exact le_trans (le_max_right a x) (le_foldl_max ys (max a x))
    · exact ih (max a y) x hx

theorem foldl_max_mem (l : List Int) :
    ∀ a : Int, l.foldl max a = a ∨ l.foldl max a ∈ l := by
  induction l with
  | nil => intro a; exact Or.inl rfl
  | cons x xs ih =>
    intro a
    simp only [List.foldl_cons]
    rcases ih (max a x) with h | h
    · rcases le_total a x with hax | hax
      · right; rw [h, max_eq_right hax]; exact List.mem_cons_self x xs
      · left; rw [h, max_eq_left hax]
    · right; exact List.mem_cons_of_mem x h

/-! ## Lemmas: the cleaning pipeline characterised -/

theorem cleanDiagnostico_eq_none_iff (v : Option String) :
    cleanDiagnostico v = none ↔
      sentinelMatch (pyStrip (optToStr v)) = true ∨
        pyStrip (optToStr v) = "nan" := by
  by_cases hm : sentinelMatch (pyStrip (optToStr v)) = true
  · simp [cleanDiagnostico, hm]
  · by_cases hn : pyStrip (optToStr v) = "nan"
    · simp [cleanDiagnostico, hm, hn]
    · simp [cleanDiagnostico, hm, hn]

theorem cleanDiagnostico_eq_some_iff (v : Option String) (s : String) :
    cleanDiagnostico v = some s ↔
      s = pyStrip (optToStr v) ∧
        ¬ sentinelMatch (pyStrip (optToStr v)) = true ∧
        pyStrip (optToStr v) ≠ "nan" := by
  by_cases hm : sentinelMatch (pyStrip (optToStr v)) = true
  · simp [cleanDiagnostico, hm]
  · by_cases hn : pyStrip (optToStr v) = "nan"
    · simp [cleanDiagnostico, hm, hn]
    · simp [cleanDiagnostico, hm, hn, eq_comm]

/-! ## Lemmas: row processing -/

theorem processRow_isSome_iff (r : RawRow) :
    (∃ row, processRow r = some row) ↔
      ∃ b e, r.dataNascimento = some b ∧ r.dataEntrada = some e ∧
        0 ≤ idadeNoAtendimento b e ∧ idadeNoAtendimento b e < 120 := by
  obtain ⟨i, ci, sx, nb, en, qx, dg⟩ := r
  cases nb with
  | none => simp [processRow]
  | some b =>
    cases en with
    | none => simp [processRow]
    | some e =>
      by_cases hcond : 0 ≤ idadeNoAtendimento b e ∧ idadeNoAtendimento b e < 120
      · simp [processRow, hcond]
      · simp [processRow, hcond]

theorem processRow_some_spec (r : RawRow) (row : Row)
    (h : processRow r = some row) :
    0 ≤ row.idade_no_atendimento ∧ row.idade_no_atendimento < 120 ∧
      row.idade_no_atendimento =
        idadeNoAtendimento row.dataNascimento row.dataEntrada := by
  obtain ⟨i, ci, sx, nb, en, qx, dg⟩ := r
  cases nb with
  | none => simp [processRow] at h
  | some b =>
    cases en with
    | none => simp [processRow] at h
    | some e =>
      by_cases hcond : 0 ≤ idadeNoAtendimento b e ∧ idadeNoAtendimento b e < 120
      · simp only [processRow] at h
        rw [if_pos hcond] at h
        injection h with h2
        subst h2
        exact ⟨hcond.1, hcond.2, rfl⟩
      · simp [processRow, hcond] at h

theorem mem_carregar_dados (rows : List RawRow) (row : Row) :
    row ∈ carregar_dados rows ↔ ∃ r ∈ rows, processRow r = some row :=
  List.mem_filterMap

/-! ## Lemmas: value_counts -/

theorem value_counts_nil : value_counts [] = [] := rfl

theorem mem_value_counts (l : List String) (p : String × Nat) :
    p ∈ value_counts l ↔ p.1 ∈ l ∧ p.2 = l.count p.1 := by
  rw [value_counts, mem_sortCountsDesc, List.mem_map]
  constructor
  · rintro ⟨v, hv, rfl⟩
    exact ⟨(mem_uniqueFirst l v).mp hv, rfl⟩
  · rintro ⟨h1, h2⟩
    refine ⟨p.1, (mem_uniqueFirst l p.1).mpr h1, ?_⟩
    rw [← h2]

theorem value_counts_sorted (l : List String) :
    (value_counts l).Pairwise fun a b =>
      b.2 ≤ a.2 ∧ (a.2 ≤ b.2 → l.indexOf a.1 < l.indexOf b.1) := by
  have h0 : ((uniqueFirst l).map fun v => (v, l.count v)).Pairwise
      fun a b : String × Nat => l.indexOf a.1 < l.indexOf b.1 := by
    rw [List.pairwise_map]
    exact pairwise_indexOf_uniqueFirst l
  exact pairwise_sortCountsDesc _ _ h0

/-! ## Lemmas: observed date span, day truncation -/

theorem minEntrada_le (df : List Row) (r : Row) (hr : r ∈ df) :
    minEntrada df ≤ r.dataEntrada := by
  cases df with
  | nil => simp at hr
  | cons d ds =>
    have hmem : r.dataEntrada ∈ (d :: ds).map Row.dataEntrada :=
      List.mem_map_of_mem _ hr
    show (ds.map Row.dataEntrada).foldl min d.dataEntrada ≤ r.dataEntrada
    rcases List.mem_cons.mp hmem with heq | hmem2
    · rw [heq]
      exact foldl_min_le _ _
    · exact foldl_min_le_mem _ _ _ hmem2

theorem le_maxEntrada (df : List Row) (r : Row) (hr : r ∈ df) :
    r.dataEntrada ≤ maxEntrada df := by
  cases df with
  | nil => simp at hr
  | cons d ds =>
    have hmem : r.dataEntrada ∈ (d :: ds).map Row.dataEntrada :=
      List.mem_map_of_mem _ hr
    show r.dataEntrada ≤ (ds.map Row.dataEntrada).foldl max d.dataEntrada
    rcases List.mem_cons.mp hmem with heq | hmem2
    · rw [heq]
      exact le_foldl_max _ _
    · exact mem_le_foldl_max _ _ _ hmem2

theorem pyDate_mono {a b : Int} (h : a ≤ b) : pyDate a ≤ pyDate b := by
  unfold pyDate secPerDay
  rw [Int.fdiv_eq_ediv _ (by norm_num), Int.fdiv_eq_ediv _ (by norm_num)]
  omega

/-! ## The claims -/

/-- C1, as amended: the cleaning step casts to text, trims whitespace, and
nullifies exactly the full-string matches of the sentinel shape — optional
leading period, the uppercase "NAO"/"NÃO" (diacritic-tolerant but
case-sensitive, the regex carrying no IGNORECASE flag), whitespace,
uppercase "DEFINIDO", optional trailing period — together with the literal
text "nan"; every surviving value is exactly the trimmed text.  In
particular ".NÃO DEFINIDO." and "NAO DEFINIDO" clean to null. -/
theorem C1_clean_diagnosis :
    (∀ v : Option String,
       cleanDiagnostico v = none ↔
         sentinelShape (pyStrip (optToStr v)) ∨ pyStrip (optToStr v) = "nan") ∧
    (∀ (v : Option String) (s : String),
       cleanDiagnostico v = some s → s = pyStrip (optToStr v)) ∧
    cleanDiagnostico (some ".NÃO DEFINIDO.") = none ∧
    cleanDiagnostico (some "NAO DEFINIDO") = none := by
  refine ⟨?_, ?_, by decide, by decide⟩
  · intro v
    rw [cleanDiagnostico_eq_none_iff, sentinelMatch_iff_shape]
  · intro v s h
    exact ((cleanDiagnostico_eq_some_iff v s).mp h).1

/-- C1 counterexample: the claim says case variants such as "não definido."
clean to null, but the regex of dashboard6.py line 28 is compiled without
IGNORECASE, so the lowercase sentinel survives as literal text. -/
theorem C1_counterexample :
    cleanDiagnostico (some "não definido.") = some "não definido." := by
  decide

/-- C2: a row of the input table yields a Dataset row exactly when both of
its dates parsed and its derived age (floor of the day difference divided by
365) lies in [0, 120); every Dataset row carries that age, and hence every
row of every filtered view has its age in [0, 120). -/
theorem C2_rows_kept (rows : List RawRow) (c : FilterCriteria) :
    (∀ r ∈ rows,
       ((∃ row ∈ carregar_dados rows, processRow r = some row) ↔
         ∃ b e, r.dataNascimento = some b ∧ r.dataEntrada = some e ∧
           0 ≤ idadeNoAtendimento b e ∧ idadeNoAtendimento b e < 120)) ∧
    (∀ row ∈ carregar_dados rows,
       0 ≤ row.idade_no_atendimento ∧ row.idade_no_atendimento < 120 ∧
         row.idade_no_atendimento =
           idadeNoAtendimento row.dataNascimento row.dataEntrada) ∧
    (∀ row ∈ df_filtered (carregar_dados rows) c,
       0 ≤ row.idade_no_atendimento ∧ row.idade_no_atendimento < 120) := by
  have hmem : ∀ row ∈ carregar_dados rows,
      0 ≤ row.idade_no_atendimento ∧ row.idade_no_atendimento < 120 ∧
        row.idade_no_atendimento =
          idadeNoAtendimento row.dataNascimento row.dataEntrada := by
    intro row hrow
    obtain ⟨r, _, hpr⟩ := (mem_carregar_dados rows row).mp hrow
    exact processRow_some_spec r row hpr
  refine ⟨?_, hmem, ?_⟩
  · intro r hr
    constructor
    · rintro ⟨row, _, hpr⟩
      exact (processRow_isSome_iff r).mp ⟨row, hpr⟩
    · intro hex
      obtain ⟨row, hpr⟩ := (processRow_isSome_iff r).mpr hex
      exact ⟨row, (mem_carregar_dados rows row).mpr ⟨r, hr, hpr⟩, hpr⟩
  · intro row hrow
    have : row ∈ carregar_dados rows := (List.mem_filter.mp hrow).1
    exact ⟨(hmem row this).1, (hmem row this).2.1⟩

/-- C3: the age bands are left-closed right-open bins over the fixed edges
[0, 2, 12, 19, 59, 120) with the five fixed ordered labels; every age in
[0, 120) falls in exactly one bin and gets its label; in particular age 2
maps to "Criança (3-12)" and age 19 to "Adulto (20-59)". -/
theorem C3_age_bands :
    (∀ a : Int, 0 ≤ a → a < 120 → ∃! i : Fin 5, binLo i ≤ a ∧ a < binHi i) ∧
    (∀ (a : Int) (i : Fin 5), binLo i ≤ a → a < binHi i →
       faixa_etaria a = some (labels_faixa i)) ∧
    faixa_etaria 2 = some "Criança (3-12)" ∧
    faixa_etaria 19 = some "Adulto (20-59)" := by
  refine ⟨?_, ?_, by decide, by decide⟩
  · intro a h0 h120
    by_cases h1 : a < 2
    · refine ⟨0, ⟨h0, h1⟩, ?_⟩
      intro j hj
      fin_cases j <;> simp [binLo, binHi] at hj ⊢ <;> omega
    · by_cases h2 : a < 12
      · refine ⟨1, ⟨by show (2 : Int) ≤ a; omega, h2⟩, ?_⟩
        intro j hj
        fin_cases j <;> simp [binLo, binHi] at hj ⊢ <;> omega
      · by_cases h3 : a < 19
        · refine ⟨2, ⟨by show (12 : Int) ≤ a; omega, h3⟩, ?_⟩
          intro j hj
          fin_cases j <;> simp [binLo, binHi] at hj ⊢ <;> omega
        · by_cases h4 : a < 59
          · refine ⟨3, ⟨by show (19 : Int) ≤ a; omega, h4⟩, ?_⟩
            intro j hj
            fin_cases j <;> simp [binLo, binHi] at hj ⊢ <;> omega
          · refine ⟨4, ⟨by show (59 : Int) ≤ a; omega, h120⟩, ?_⟩
            intro j hj
            fin_cases j <;> simp [binLo, binHi] at hj ⊢ <;> omega
  · intro a i hlo hhi
    fin_cases i <;>
      simp [binLo, binHi] at hlo hhi <;>
      simp only [labels_faixa] <;>
      unfold faixa_etaria <;>
      split_ifs <;> first | rfl | omega

/-- C9: the cleaning step is idempotent — cleaning an already-cleaned
diagnosis, the null result included, changes nothing. -/
theorem C9_clean_idempotent :
    ∀ v : Option String,
      cleanDiagnostico (cleanDiagnostico v) = cleanDiagnostico v := by
  intro v
  cases hv : cleanDiagnostico v with
  | none => decide
  | some s =>
    obtain ⟨hs, hm, hn⟩ := (cleanDiagnostico_eq_some_iff v s).mp hv
    have hps : pyStrip (optToStr (some s)) = s := by
      show pyStrip s = s
      rw [hs]
      exact pyStrip_idem _
    refine (cleanDiagnostico_eq_some_iff (some s) s).mpr ⟨hps.symm, ?_, ?_⟩
    · rw [hps, hs]
      exact hm
    · rw [hps, hs]
      exact hn

/-- C4: the sidebar filter keeps exactly the rows whose city belongs to the
chosen set and whose visit date, truncated to the day, lies inside the
selected range, both bounds inclusive. -/
theorem C4_filter_spec (df : List Row) (c : FilterCriteria) (r : Row) :
    r ∈ df_filtered df c ↔
      r ∈ df ∧ r.cidade ∈ c.cidades ∧
        c.data_inicio ≤ pyDate r.dataEntrada ∧
        pyDate r.dataEntrada ≤ c.data_fim := by
  unfold df_filtered
  rw [List.mem_filter]
  constructor
  · rintro ⟨hmem, hb⟩
    simp only [Bool.and_eq_true, decide_eq_true_iff] at hb
    obtain ⟨⟨hc, h1⟩, h2⟩ := hb
    exact ⟨hmem, List.elem_iff.mp hc, h1, h2⟩
  · rintro ⟨hmem, hc, h1, h2⟩
    refine ⟨hmem, ?_⟩
    simp only [Bool.and_eq_true, decide_eq_true_iff]
    exact ⟨⟨List.elem_iff.mpr hc, h1⟩, h2⟩

/-- C5: the "most common diagnosis" KPI returns a most frequent non-null
diagnosis of the view, and the sentinel "N/A" — with no error raised — when
the view has no non-null diagnosis at all. -/
theorem C5_modal_diagnosis (df : List Row) :
    (diagnosticos df = [] → top_diag df = "N/A") ∧
    (diagnosticos df ≠ [] →
      top_diag df ∈ diagnosticos df ∧
        ∀ d ∈ diagnosticos df,
          (diagnosticos df).count d ≤ (diagnosticos df).count (top_diag df)) := by
  cases hvc : value_counts (diagnosticos df) with
  | nil =>
    have ht : top_diag df = "N/A" := by
      unfold top_diag
      rw [hvc]
    refine ⟨fun _ => ht, fun hne => absurd ?_ hne⟩
    by_contra hl
    obtain ⟨d, hd⟩ := List.exists_mem_of_ne_nil _ hl
    have : (d, (diagnosticos df).count d) ∈ value_counts (diagnosticos df) :=
      (mem_value_counts _ _).mpr ⟨hd, rfl⟩
    rw [hvc] at this
    simp at this
  | cons p ps =>
    have ht : top_diag df = p.1 := by
      unfold top_diag
      rw [hvc]
    have hp : p ∈ value_counts (diagnosticos df) := by
      rw [hvc]; exact List.mem_cons_self _ _
    obtain ⟨hp1, hp2⟩ := (mem_value_counts _ _).mp hp
    constructor
    · intro h0
      rw [h0] at hp1
      simp at hp1
    · intro _
      refine ⟨ht ▸ hp1, ?_⟩
      intro d hd
      have hdmem : (d, (diagnosticos df).count d) ∈ value_counts (diagnosticos df) :=
        (mem_value_counts _ _).mpr ⟨hd, rfl⟩
      rw [hvc] at hdmem
      rw [ht, ← hp2]
      rcases List.mem_cons.mp hdmem with heq | htail
      · rw [← heq]
      · have hsorted := value_counts_sorted (diagnosticos df)
        rw [hvc] at hsorted
        have := (List.pairwise_cons.mp hsorted).1 _ htail
        exact this.1

/-- C6, as amended: the complaint search casts the complaint text to text —
a null complaint becomes the literal "nan" — and keeps exactly the rows
whose cast text contains the (metacharacter-free) term as a
case-insensitive substring, so a null-complaint row matches exactly the
terms that are case-insensitive substrings of "nan"; the empty term selects
nothing; the term "febre" against the complaints "Febre alta",
"febre e tosse", "dor" matches exactly the first two. -/
theorem C6_complaint_search (df : List Row) (termo : String) (r : Row) :
    (r ∈ df_queixa df termo ↔
       termo ≠ "" ∧ r ∈ df ∧
         (pyLower termo).toList <:+: (pyLower (optToStr r.queixa)).toList) ∧
    df_queixa
        [⟨1, "X", "F", 0, 0, some "Febre alta", none, 0⟩,
         ⟨2, "X", "F", 0, 0, some "febre e tosse", none, 0⟩,
         ⟨3, "X", "M", 0, 0, some "dor", none, 0⟩] "febre" =
      [⟨1, "X", "F", 0, 0, some "Febre alta", none, 0⟩,
       ⟨2, "X", "F", 0, 0, some "febre e tosse", none, 0⟩] := by
  refine ⟨?_, by decide⟩
  unfold df_queixa
  by_cases ht : termo = ""
  · rw [if_pos ht]
    simp [ht]
  · rw [if_neg ht]
    rw [List.mem_filter]
    simp only [decide_eq_true_iff]
    tauto

/-- C6 counterexample: the claim says a null complaint never matches any
term, but `astype(str)` has already turned the null into the literal text
"nan" when the match runs, so the term "nan" matches a null-complaint
row. -/
theorem C6_counterexample :
    df_queixa [⟨7, "X", "F", 0, 0, none, none, 0⟩] "nan" =
      [⟨7, "X", "F", 0, 0, none, none, 0⟩] := by
  decide

/-- C10: filtering with the default criteria — all distinct cities and the
full observed day span — returns the whole Dataset. -/
theorem C10_default_filter_identity (df : List Row) :
    df_filtered df (defaultCriteria df) = df := by
  unfold df_filtered
  rw [List.filter_eq_self]
  intro r hr
  simp only [Bool.and_eq_true, decide_eq_true_iff]
  refine ⟨⟨?_, ?_⟩, ?_⟩
  · show (defaultCriteria df).cidades.contains r.cidade = true
    exact List.elem_iff.mpr
      ((mem_uniqueFirst _ _).mpr (List.mem_map_of_mem _ hr))
  · show pyDate (minEntrada df) ≤ pyDate r.dataEntrada
    exact pyDate_mono (minEntrada_le df r hr)
  · show pyDate r.dataEntrada ≤ pyDate (maxEntrada df)
    exact pyDate_mono (le_maxEntrada df r hr)

/-- C7: for a non-empty view the monthly series has exactly one point per
calendar month from the earliest to the latest visit month, in
chronological order, whose count is the number of visits in that month
(zero for gap months); for an empty view the series is empty. -/
theorem C7_monthly_series (df : List Row) :
    (df = [] → vendas_tempo df = []) ∧
    (df ≠ [] →
      minMonth df ∈ visitMonths df ∧ maxMonth df ∈ visitMonths df ∧
      (∀ m ∈ visitMonths df, minMonth df ≤ m ∧ m ≤ maxMonth df) ∧
      (∀ m : Int, (∃ k, (m, k) ∈ vendas_tempo df) ↔
        minMonth df ≤ m ∧ m ≤ maxMonth df) ∧
      (∀ p ∈ vendas_tempo df, p.2 = (visitMonths df).count p.1) ∧
      (vendas_tempo df).Pairwise fun p q => p.1 < q.1) := by
  cases df with
  | nil => exact ⟨fun _ => rfl, fun h => absurd rfl h⟩
  | cons r rs =>
    refine ⟨fun h => by simp at h, fun _ => ?_⟩
    have hvm : visitMonths (r :: rs) =
        civilMonth r.dataEntrada :: (rs.map fun x => civilMonth x.dataEntrada) :=
      rfl
    have hvt : vendas_tempo (r :: rs) =
        (List.range (maxMonth (r :: rs) - minMonth (r :: rs) + 1).toNat).map
          (fun (i : Nat) => (minMonth (r :: rs) + (i : Int),
            (visitMonths (r :: rs)).count (minMonth (r :: rs) + (i : Int)))) :=
      rfl
    have hlo : minMonth (r :: rs) =
        (rs.map fun x => civilMonth x.dataEntrada).foldl min
          (civilMonth r.dataEntrada) := rfl
    have hhi : maxMonth (r :: rs) =
        (rs.map fun x => civilMonth x.dataEntrada).foldl max
          (civilMonth r.dataEntrada) := rfl
    have hbound : ∀ m ∈ visitMonths (r :: rs),
        minMonth (r :: rs) ≤ m ∧ m ≤ maxMonth (r :: rs) := by
      intro m hm
      rw [hvm] at hm
      rw [hlo, hhi]
      rcases List.mem_cons.mp hm with rfl | hm2
      · exact ⟨foldl_min_le _ _, le_foldl_max _ _⟩
      · exact ⟨foldl_min_le_mem _ _ _ hm2, mem_le_foldl_max _ _ _ hm2⟩
    have hlomem : minMonth (r :: rs) ∈ visitMonths (r :: rs) := by
      rw [hvm, hlo]
      rcases foldl_min_mem (rs.map fun x => civilMonth x.dataEntrada)
          (civilMonth r.dataEntrada) with h | h
      · rw [h]; exact List.mem_cons_self _ _
      · exact List.mem_cons_of_mem _ h
    have hhimem : maxMonth (r :: rs) ∈ visitMonths (r :: rs) := by
      rw [hvm, hhi]
      rcases foldl_max_mem (rs.map fun x => civilMonth x.dataEntrada)
          (civilMonth r.dataEntrada) with h | h
      · rw [h]; exact List.mem_cons_self _ _
      · exact List.mem_cons_of_mem _ h
    have hlohi : minMonth (r :: rs) ≤ maxMonth (r :: rs) :=
      le_trans (hbound _ hlomem).1 (hbound _ hlomem).2
    refine ⟨hlomem, hhimem, hbound, ?_, ?_, ?_⟩
    · intro m
      constructor
      · rintro ⟨k, hk⟩
        rw [hvt] at hk
        obtain ⟨i, hir, heq⟩ := List.mem_map.mp hk
        have hir2 := List.mem_range.mp hir
        obtain ⟨h1, -⟩ := Prod.mk.injEq .. |>.mp heq
        omega
      · rintro ⟨h1, h2⟩
        refine ⟨(visitMonths (r :: rs)).count m, ?_⟩
        rw [hvt]
        refine List.mem_map.mpr ⟨(m - minMonth (r :: rs)).toNat,
          List.mem_range.mpr (by omega), ?_⟩
        have hcast : minMonth (r :: rs) +
            ((m - minMonth (r :: rs)).toNat : Int) = m := by omega
        rw [hcast]
    · intro p hp
      rw [hvt] at hp
      obtain ⟨i, -, heq⟩ := List.mem_map.mp hp
      subst heq
      rfl
    · rw [hvt, List.pairwise_map]
      refine List.Pairwise.imp ?_ (List.pairwise_lt_range _)
      intro a b hab
      show minMonth (r :: rs) + (a : Int) < minMonth (r :: rs) + (b : Int)
      omega

/-- C8: the top-10 ranking has at most ten entries, lists only (non-null)
diagnosis values actually present with their frequencies, in descending
frequency order, breaking frequency ties by the order of first occurrence
in the view. -/
theorem C8_top_diagnoses (df : List Row) :
    (top_diagnosticos df).length ≤ 10 ∧
    (∀ p ∈ top_diagnosticos df,
       p.1 ∈ diagnosticos df ∧ p.2 = (diagnosticos df).count p.1) ∧
    (top_diagnosticos df).Pairwise (fun a b => b.2 ≤ a.2) ∧
    (top_diagnosticos df).Pairwise fun a b =>
      a.2 = b.2 →
        (diagnosticos df).indexOf a.1 < (diagnosticos df).indexOf b.1 := by
  have hsorted := value_counts_sorted (diagnosticos df)
  have hsub : (top_diagnosticos df).Sublist (value_counts (diagnosticos df)) :=
    List.take_sublist _ _
  refine ⟨List.length_take_le _ _, ?_, ?_, ?_⟩
  · intro p hp
    exact (mem_value_counts _ _).mp (hsub.subset hp)
  · exact (hsorted.imp fun h => h.1).sublist hsub
  · exact (hsorted.imp fun h heq => h.2 (le_of_eq heq)).sublist hsub

end Dashboard
